import Mathlib

/-!
Verification development for the YooKassa tax bot's registry parsing and
aggregation core (`src/bot/csv_parser.py`, `src/bot/database.py`,
`src/bot/imap_client.py`).

Modelling conventions:
* Python strings are embedded as `List Char` (splitting, stripping and
  substring search are re-implemented structurally so they compute in the
  kernel); `String` is used at the outer interfaces.
* Python `float` amounts are embedded as exact rationals `ℚ`: the parser's
  arithmetic (`+=` over parsed decimal literals) is translated to exact
  rational arithmetic.
* SQLite tables are embedded as lists of rows in rowid order; AUTOINCREMENT
  is a monotone `nextId` counter; `INSERT OR REPLACE` deletes the conflicting
  row and appends a fresh row; wall-clock columns (`created_at`,
  `processed_at`, `last_check`) and surrogate ids of the payments table are
  omitted (no query reads them).
* Exceptions are embedded as `Option`: a `none`/`.rowError` result models the
  exception paths of the source.
-/

set_option maxRecDepth 20000

namespace Bot

/-- Python's single-character `str.split(sep)`: splits at every occurrence of
`sep`, keeping empty pieces, and maps the empty string to `[[]]`. -/
def splitOnChar (sep : Char) : List Char → List (List Char)
  | [] => [[]]
  | c :: cs =>
    let rest := splitOnChar sep cs
    if c = sep then [] :: rest
    else
      match rest with
      | [] => [[c]]
      | g :: gs => (c :: g) :: gs

/-- The whitespace characters stripped by Python's `str.strip()` (ASCII part). -/
def isSpaceChar (c : Char) : Bool :=
  c = ' ' || c = '\t' || c = '\n' || c = '\r' || c = '\x0b' || c = '\x0c'

/-- Python's `str.strip()`. -/
def pyStrip (cs : List Char) : List Char :=
  ((cs.dropWhile isSpaceChar).reverse.dropWhile isSpaceChar).reverse

/-- Boolean list-prefix test. -/
def isPrefixB : List Char → List Char → Bool
  | [], _ => true
  | _ :: _, [] => false
  | a :: as, b :: bs => decide (a = b) && isPrefixB as bs

/-- Boolean substring test: Python's `needle in haystack`. -/
def isInfixB (p : List Char) : List Char → Bool
  | [] => isPrefixB p []
  | c :: cs => isPrefixB p (c :: cs) || isInfixB p cs

/-- Python's `line.split(":", 1)[1]` when a colon occurs: the characters after
the first colon, or `none` when the line has no colon. -/
def afterFirstColon : List Char → Option (List Char)
  | [] => none
  | c :: cs => if c = ':' then some cs else afterFirstColon cs

def dateLabel : List Char := "Дата платежей".toList
def headerToken : List Char := "Идентификатор платежа".toList
def summaryMarker1 : List Char := "Сумма принятых платежей".toList
def summaryMarker2 : List Char := "Число платежей".toList
def idKey : List Char := "Идентификатор платежа".toList
def amountKey : List Char := "Сумма платежа".toList
def commissionKey : List Char := "Сумма комиссии без НДС".toList
def timeKey : List Char := "Время платежа".toList
def descriptionKey : List Char := "Описание".toList
def typeKey : List Char := "Тип платежа".toList
def currencyKey : List Char := "Валюта платежа".toList

/-- The date scan of `parse_yookassa_csv` (csv_parser.py lines 34-42): walk the
given lines; on the first line containing the date label, take the substring
after the first colon, stripped, and stop; a label line without a colon does
not stop the scan; if no line yields a date, the sentinel `"unknown"` stands. -/
def findDate : List (List Char) → List Char
  | [] => "unknown".toList
  | l :: rest =>
    if isInfixB dateLabel l then
      match afterFirstColon l with
      | some tail => pyStrip tail
      | none => findDate rest
    else findDate rest

/-- The header scan (csv_parser.py lines 48-52): the first line containing the
header token, together with the lines after it, or `none`. -/
def headerSplit : List (List Char) → Option (List Char × List (List Char))
  | [] => none
  | l :: rest => if isInfixB headerToken l then some (l, rest) else headerSplit rest

/-- Decimal digits read as a natural number (most significant first). -/
def digitsToNat (ds : List Char) : Nat :=
  ds.foldl (fun n c => 10 * n + (c.toNat - 48)) 0

/-- Exponent digits of a Python float literal: applies `* 10^e` or `/ 10^e`. -/
def applyExpSign (base : ℚ) (neg : Bool) (ds : List Char) : Option ℚ :=
  if !ds.isEmpty && ds.all Char.isDigit then
    some (if neg then base / 10 ^ digitsToNat ds else base * 10 ^ digitsToNat ds)
  else none

/-- Optional sign of the exponent part of a Python float literal. -/
def parseExpSigned (base : ℚ) : List Char → Option ℚ
  | '+' :: r => applyExpSign base false r
  | '-' :: r => applyExpSign base true r
  | r => applyExpSign base false r

/-- Optional `e`/`E` exponent suffix of a Python float literal. -/
def parseExpTail (base : ℚ) : List Char → Option ℚ
  | [] => some base
  | 'e' :: r => parseExpSigned base r
  | 'E' :: r => parseExpSigned base r
  | _ => none

/-- Unsigned part of Python's `float(s)` on decimal literals:
`digits`, `digits.digits`, `.digits`, `digits.`, with an optional exponent. -/
def parseUnsignedFloat (cs : List Char) : Option ℚ :=
  let ip := cs.takeWhile Char.isDigit
  let rest := cs.dropWhile Char.isDigit
  match rest with
  | [] => if ip.isEmpty then none else some (digitsToNat ip)
  | '.' :: r2 =>
    let fp := r2.takeWhile Char.isDigit
    let rest2 := r2.dropWhile Char.isDigit
    if ip.isEmpty && fp.isEmpty then none
    else parseExpTail ((digitsToNat ip : ℚ) + (digitsToNat fp : ℚ) / 10 ^ fp.length) rest2
  | _ => if ip.isEmpty then none else parseExpTail (digitsToNat ip) rest

/-- Python's `float(s)` on the decimal-literal subset produced by the registry
(optional sign, digits, decimal point, optional exponent); exotic forms
(`inf`, `nan`, underscores, non-ASCII digits) are outside the model and fail. -/
def parsePyFloat : List Char → Option ℚ
  | '+' :: r => parseUnsignedFloat r
  | '-' :: r => (parseUnsignedFloat r).map Neg.neg
  | r => parseUnsignedFloat r

/-- `amount_str.replace(",", ".").replace(" ", "")` (csv_parser.py lines 87-88). -/
def normalizeNum (cs : List Char) : List Char :=
  (cs.map (fun c => if c = ',' then '.' else c)).filter (fun c => decide (c ≠ ' '))

/-- Index of the last occurrence of `key` among the field names: the value a
Python `dict` built by `zip(fieldnames, row)` associates with a duplicated key
comes from its last occurrence. -/
def lastIdxOf (key : List Char) : List (List Char) → Option Nat
  | [] => none
  | f :: rest =>
    match lastIdxOf key rest with
    | some i => some (i + 1)
    | none => if f = key then some 0 else none

/-- A cell of a `csv.DictReader` row: `.dflt` when the key is not a field name
at all (the `.get` default applies), `.null` when the row is shorter than the
field list (Python `None`, the `restval`), else the cell's text. -/
inductive CellVal where
  | dflt
  | null
  | val (v : List Char)
deriving DecidableEq

def cellVal (fns row : List (List Char)) (key : List Char) : CellVal :=
  match lastIdxOf key fns with
  | none => .dflt
  | some i =>
    match row[i]? with
    | some v => .val v
    | none => .null

/-- `row.get(key, d)` where `d` is a string default: `none` models Python
`None` (a short row), on which the source's `.strip()` raises. -/
def getWithDefault (fns row : List (List Char)) (key d : List Char) : Option (List Char) :=
  match cellVal fns row key with
  | .dflt => some d
  | .null => none
  | .val v => some v

/-- `row.get(key)` with the default `None`: `none` models Python `None`. -/
def getOrNone (fns row : List (List Char)) (key : List Char) : Option (List Char) :=
  match cellVal fns row key with
  | .dflt => none
  | .null => none
  | .val v => some v

/-- One parsed payment (csv_parser.py lines 93-100). -/
structure Payment where
  payment_id : String
  amount : ℚ
  currency : String
  payment_time : String
  description : String
  payment_type : String
deriving DecidableEq

/-- Outcome of one iteration of the row loop (csv_parser.py lines 66-104):
`.stop` models the `break` on a summary row, `.skip` the two `continue`s
(blank identifier; numeric-parse failure caught by the inner handler),
`.rowError` an exception that escapes to the top-level handler (an access to a
Python `None` cell), `.pay` an accepted payment with its commission. -/
inductive RowOutcome where
  | stop
  | skip
  | rowError
  | pay (p : Payment) (comm : ℚ)
deriving DecidableEq

def rowOutcome (fns row : List (List Char)) : RowOutcome :=
  match getOrNone fns row (fns.headD []) with
  | none => .rowError
  | some firstCol =>
    if isInfixB summaryMarker1 firstCol || isInfixB summaryMarker2 firstCol then .stop
    else
      match getOrNone fns row idKey with
      | none => .skip
      | some [] => .skip
      | some _ =>
        match getWithDefault fns row idKey [] with
        | none => .rowError
        | some pid =>
          match getWithDefault fns row amountKey ['0'] with
          | none => .rowError
          | some amountStr =>
            match getWithDefault fns row commissionKey ['0'] with
            | none => .rowError
            | some commStr =>
              match getWithDefault fns row timeKey [] with
              | none => .rowError
              | some timeStr =>
                match getWithDefault fns row descriptionKey [] with
                | none => .rowError
                | some descStr =>
                  match getWithDefault fns row typeKey [] with
                  | none => .rowError
                  | some typeStr =>
                    match parsePyFloat (normalizeNum (pyStrip amountStr)) with
                    | none => .skip
                    | some amount =>
                      match parsePyFloat (normalizeNum (pyStrip commStr)) with
                      | none => .skip
                      | some comm =>
                        match getWithDefault fns row currencyKey "RUB".toList with
                        | none => .rowError
                        | some currStr =>
                          .pay ⟨⟨pyStrip pid⟩, amount, ⟨pyStrip currStr⟩,
                               ⟨pyStrip timeStr⟩, ⟨pyStrip descStr⟩,
                               ⟨pyStrip typeStr⟩⟩ comm

/-- The row loop of `parse_yookassa_csv` over the data lines: accumulates the
accepted payments and the running sums of amount and commission; `none` models
an exception escaping to the top-level handler. Blank lines are skipped
(`csv.DictReader` drops empty rows). -/
def processRows (fns : List (List Char)) : List (List Char) → Option (List Payment × ℚ × ℚ)
  | [] => some ([], 0, 0)
  | l :: rest =>
    if l = [] then processRows fns rest
    else
      match rowOutcome fns (splitOnChar ';' l) with
      | .stop => some ([], 0, 0)
      | .skip => processRows fns rest
      | .rowError => none
      | .pay p comm =>
        match processRows fns rest with
        | none => none
        | some (ps, ta, tc) => some (p :: ps, p.amount + ta, comm + tc)

/-- The dictionary returned by `parse_yookassa_csv` on success. -/
structure ParseResult where
  date : String
  total_amount : ℚ
  commission : ℚ
  payments_count : Nat
  payments : List Payment
deriving DecidableEq

/-- The line-level logic of `parse_yookassa_csv` (csv_parser.py lines 26-115)
on the already-split lines: fail below 4 lines; scan the first 5 lines for the
payment date (sentinel `"unknown"` when absent); fail when no line holds the
header token; run the row loop on the lines after the header line, whose split
provides the field names; `none` also models the top-level exception handler
(reached only through `.rowError`). -/
def parseLines (lines : List (List Char)) : Option ParseResult :=
  if lines.length < 4 then none
  else
    match headerSplit lines with
    | none => none
    | some (headerLine, dataLines) =>
      match processRows (splitOnChar ';' headerLine) dataLines with
      | none => none
      | some (ps, total, comm) =>
        some ⟨⟨findDate (lines.take 5)⟩, total, comm, ps.length, ps⟩

/-- `parse_yookassa_csv` (csv_parser.py lines 9-119): strip the content and
split it into lines, then parse them. -/
def parse_yookassa_csv (content : String) : Option ParseResult :=
  parseLines (splitOnChar '\n' (pyStrip content.toList))

/-- The identifier cell of a row is "truthy" in Python's sense (present and
non-empty), i.e. the row passes the blank-identifier skip of csv_parser.py
line 74: under this condition a `.skip` outcome can only stem from a
numeric-parse failure. -/
def idTruthy (fns row : List (List Char)) : Bool :=
  match getOrNone fns row idKey with
  | none => false
  | some [] => false
  | some (_ :: _) => true

/-! ## IEEE-754 binary64 model of the parser's amounts

`parse_yookassa_csv` above reads decimal literals as exact rationals, which
suffices for the structural claims (success/failure, row skipping, counts).
The source, however, stores amounts as Python floats — IEEE-754 binary64 —
and accumulates them with `+=`, rounding after every addition. The following
model represents a finite double by its exact rational value and implements
round-to-nearest, ties-to-even with a 53-bit significand; overflow,
subnormals, infinities and NaN lie outside the range of registry amounts and
are not modelled. -/

/-- Floor of the base-2 logarithm of a positive natural number (fuel-driven
structural recursion; `fuel ≥ n` suffices). -/
def natLog2Aux : Nat → Nat → Nat
  | 0, _ => 0
  | fuel + 1, n => if n ≤ 1 then 0 else natLog2Aux fuel (n / 2) + 1

def natLog2 (n : Nat) : Nat := natLog2Aux n n

/-- `2 ^ e` as a rational, for an integer exponent. -/
def pow2 (e : ℤ) : ℚ :=
  if 0 ≤ e then ((2 ^ e.toNat : ℕ) : ℚ) else Rat.divInt 1 (2 ^ (-e).toNat)

/-- For positive `q`, the unique `e` with `2 ^ e ≤ q < 2 ^ (e + 1)`. -/
def ratLog2 (q : ℚ) : ℤ :=
  let e0 : ℤ := (natLog2 q.num.natAbs : ℤ) - (natLog2 q.den : ℤ)
  if q < pow2 e0 then e0 - 1 else e0

/-- Round a positive rational to the nearest binary64 value (53-bit
significand), ties to even. -/
def f64roundPos (q : ℚ) : ℚ :=
  let ulp := pow2 (ratLog2 q - 52)
  let k := q / ulp
  let n := Rat.floor k
  let f := k - (n : ℚ)
  let n2 :=
    if f < Rat.divInt 1 2 then n
    else if Rat.divInt 1 2 < f then n + 1
    else if n % 2 = 0 then n else n + 1
  (n2 : ℚ) * ulp

/-- Round a rational to the nearest binary64 value (normal finite range). -/
def f64round (q : ℚ) : ℚ :=
  if q = 0 then 0
  else if q < 0 then -f64roundPos (-q) else f64roundPos q

/-- The row outcome with Python-float field values: `float()` of a decimal
literal yields the binary64 rounding of the literal's exact value. -/
def rowOutcomeF64 (fns row : List (List Char)) : RowOutcome :=
  match rowOutcome fns row with
  | .pay p comm => .pay { p with amount := f64round p.amount } (f64round comm)
  | o => o

/-- The row loop with IEEE-754 accumulation: `total_amount += amount` and
`commission += comm` round after every addition, left to right, exactly as
the source's float `+=` does (accumulators and the reversed accumulator list
thread the loop state). -/
def processRowsF64 (fns : List (List Char)) :
    ℚ → ℚ → List Payment → List (List Char) → Option (List Payment × ℚ × ℚ)
  | ta, tc, acc, [] => some (acc.reverse, ta, tc)
  | ta, tc, acc, l :: rest =>
    if l = [] then processRowsF64 fns ta tc acc rest
    else
      match rowOutcomeF64 fns (splitOnChar ';' l) with
      | .stop => some (acc.reverse, ta, tc)
      | .skip => processRowsF64 fns ta tc acc rest
      | .rowError => none
      | .pay p comm =>
        processRowsF64 fns (f64round (ta + p.amount)) (f64round (tc + comm)) (p :: acc) rest

/-- `parseLines` with binary64 amounts and accumulation. -/
def parseLinesF64 (lines : List (List Char)) : Option ParseResult :=
  if lines.length < 4 then none
  else
    match headerSplit lines with
    | none => none
    | some (headerLine, dataLines) =>
      match processRowsF64 (splitOnChar ';' headerLine) 0 0 [] dataLines with
      | none => none
      | some (ps, total, comm) =>
        some ⟨⟨findDate (lines.take 5)⟩, total, comm, ps.length, ps⟩

/-- The float-faithful model of `parse_yookassa_csv` (csv_parser.py lines
9-119) for the numerical claim: amounts are binary64 values and the running
sums round after every addition. -/
def parse_yookassa_csv_f64 (content : String) : Option ParseResult :=
  parseLinesF64 (splitOnChar '\n' (pyStrip content.toList))

/-- The IEEE-754 left-to-right accumulation of a list of amounts, as the
source's `total_amount += amount` performs starting from `0.0`. -/
def floatSum (l : List ℚ) : ℚ := l.foldl (fun t a => f64round (t + a)) 0

/-! ## Record store (src/bot/database.py)

The `registries` table (UNIQUE(date), AUTOINCREMENT id) and the `payments`
table (one row per payment, `registry_id` foreign key, not enforced: SQLite
runs with foreign keys off and no ON DELETE action is declared). Rows are
kept in rowid order; `nextId` is the AUTOINCREMENT sequence for `registries`.
-/

/-- A row of the `registries` table (`created_at` omitted). -/
structure RegistryRow where
  id : Nat
  date : String
  total_amount : ℚ
  commission : ℚ
  payments_count : Nat
  tax_file : Option String
  payments_file : Option String
deriving DecidableEq

/-- A row of the `payments` table (its own surrogate id omitted: no query
reads it). -/
structure PaymentRow where
  registry_id : Nat
  payment_id : String
  amount : ℚ
  currency : String
  payment_time : String
  description : String
  payment_type : String
deriving DecidableEq

structure RegDB where
  nextId : Nat
  registries : List RegistryRow
  payments : List PaymentRow
deriving DecidableEq

/-- The dict passed to `save_registry`: a parse result enriched with the two
derived file paths (imap_client.py lines 209-213). -/
structure RegistryData where
  date : String
  total_amount : ℚ
  commission : ℚ
  payments_count : Nat
  tax_file : Option String
  payments_file : Option String
  payments : List Payment
deriving DecidableEq

def paymentToRow (rid : Nat) (p : Payment) : PaymentRow :=
  ⟨rid, p.payment_id, p.amount, p.currency, p.payment_time, p.description, p.payment_type⟩

/-- `Database.save_registry` (database.py lines 133-170): `INSERT OR REPLACE`
on the UNIQUE(date) key deletes any conflicting `registries` row and inserts a
fresh row under a new AUTOINCREMENT id; the payments of `data` are then
inserted under that new id. Payment rows of an earlier registry for the same
date are not touched. Returns `lastrowid` and the new state. -/
def save_registry (data : RegistryData) (db : RegDB) : Nat × RegDB :=
  (db.nextId,
   ⟨db.nextId + 1,
    db.registries.filter (fun r => decide (r.date ≠ data.date)) ++
      [⟨db.nextId, data.date, data.total_amount, data.commission, data.payments_count,
        data.tax_file, data.payments_file⟩],
    db.payments ++ data.payments.map (paymentToRow db.nextId)⟩)

/-- `Database.get_registry` (database.py lines 172-196): the first
`registries` row with the given date together with the `payments` rows whose
`registry_id` equals that row's id. -/
def get_registry (date : String) (db : RegDB) : Option (RegistryRow × List PaymentRow) :=
  match db.registries.find? (fun r => decide (r.date = date)) with
  | none => none
  | some row => some (row, db.payments.filter (fun p => decide (p.registry_id = row.id)))

/-! ## Deduplication ledger and ingestion cycle
(src/bot/database.py lines 89-115, src/bot/imap_client.py lines 38-102) -/

/-- A row of the `processed_files` table (UNIQUE(message_id, filename,
file_hash); `processed_at` omitted). -/
structure Fingerprint where
  message_id : String
  filename : String
  file_hash : String
deriving DecidableEq

/-- The single-row `stats` table (`last_check` timestamp omitted). -/
structure BotStats where
  emails_processed : Nat
  files_processed : Nat
deriving DecidableEq

/-- `Database.mark_processed` (lines 99-106): `INSERT OR IGNORE` of the
fingerprint triple — a duplicate key is a no-op, never an error. -/
def mark_processed (fp : Fingerprint) (l : List Fingerprint) : List Fingerprint :=
  if fp ∈ l then l else l ++ [fp]

/-- `Database.update_stats` (lines 108-115): atomic increment of both
counters. -/
def update_stats (emailsCount filesCount : Nat) (s : BotStats) : BotStats :=
  ⟨s.emails_processed + emailsCount, s.files_processed + filesCount⟩

/-- The bot's persistent state as seen by one ingestion cycle. -/
structure BotState where
  processed : List Fingerprint
  reg : RegDB
  stats : BotStats
deriving DecidableEq

/-- `Database.is_processed` (lines 89-97): pure existence check. -/
def is_processed (fp : Fingerprint) (st : BotState) : Bool :=
  decide (fp ∈ st.processed)

/-- The SHA-256 content fingerprint (imap_client.py line 72), modelled as an
injective stand-in on the raw content: the cycle only relies on the hash being
a deterministic function of the bytes. -/
def sha256_hex (content : String) : String := content

def tax_file_path (date : String) : String :=
  "/app/data/temp/tax_ready_" ++ date ++ ".csv"

def payments_file_path (date : String) : String :=
  "/app/data/temp/payments_" ++ date ++ ".csv"

/-- `IMAPClient._process_csv` (imap_client.py lines 187-217): decode the raw
bytes (the caller supplies the decoding function; `none` models a decode
error), run the parser, and on success return the parse result enriched with
the two derived file paths (file writing itself is I/O outside the model).
Any failure is caught and becomes `none`. -/
def process_csv (decode : String → Option String) (content : String) : Option RegistryData :=
  match decode content with
  | none => none
  | some text =>
    match parse_yookassa_csv text with
    | none => none
    | some r =>
      some ⟨r.date, r.total_amount, r.commission, r.payments_count,
            some (tax_file_path r.date), some (payments_file_path r.date), r.payments⟩

/-- One attachment of one delivery. `content` is the raw byte payload. -/
structure Attachment where
  filename : String
  content : String
deriving DecidableEq

/-- One fetched message: its Message-ID and its CSV attachments. -/
structure MsgData where
  message_id : String
  attachments : List Attachment
deriving DecidableEq

def fingerprintOf (mid : String) (a : Attachment) : Fingerprint :=
  ⟨mid, a.filename, sha256_hex a.content⟩

/-- The per-attachment body of `check_and_process` (imap_client.py lines
67-85): skip when the fingerprint is already recorded; otherwise parse; on a
usable result record the fingerprint and emit the result. -/
def processAttachment (decode : String → Option String) (mid : String) (st : BotState)
    (a : Attachment) : BotState × Option RegistryData :=
  if is_processed (fingerprintOf mid a) st then (st, none)
  else
    match process_csv decode a.content with
    | none => (st, none)
    | some r =>
      ({ st with processed := mark_processed (fingerprintOf mid a) st.processed }, some r)

/-- The flattened (message-id, attachment) iteration order of the two nested
loops of `check_and_process`. -/
def attachmentItems (msgs : List MsgData) : List (String × Attachment) :=
  msgs.foldr (fun m acc => m.attachments.map (fun a => (m.message_id, a)) ++ acc) []

/-- The inner loops of `check_and_process`: processes the items in order,
threading the state and collecting the emitted results in order. -/
def runItems (decode : String → Option String) :
    BotState → List (String × Attachment) → BotState × List RegistryData
  | st, [] => (st, [])
  | st, (mid, a) :: rest =>
    let pa := processAttachment decode mid st a
    let pr := runItems decode pa.1 rest
    (pr.1,
     match pa.2 with
     | none => pr.2
     | some r => r :: pr.2)

/-- `IMAPClient.check_and_process` (imap_client.py lines 38-102) on a
successfully fetched list of messages: process every attachment of every
message, then call `update_stats` once with the number of messages scanned and
the number of new results. -/
def check_and_process (decode : String → Option String) (msgs : List MsgData)
    (st : BotState) : BotState × List RegistryData :=
  let pr := runItems decode st (attachmentItems msgs)
  ({ pr.1 with stats := update_stats msgs.length pr.2.length pr.1.stats }, pr.2)

/-! ## Confirmation store

Modelled from the spec: `Database.confirm_registry` and
`Database.get_pending_registries`, and the `status` column of the registries
table they rely on, are absent from src/bot/database.py — only their callers
exist (src/bot/handlers.py lines 234, 261, 438, 466). Spec section 4.2:
`get_pending()` returns the registries with status pending; `confirm(date)`
transitions pending to confirmed, is a no-op (not an error) when the date is
already confirmed or absent, and `get_history(limit)` lists registries most
recent date first, carrying their status; a registry starts pending. -/

inductive RegStatus where
  | pending
  | confirmed
deriving DecidableEq

/-- Modelled from the spec: a registries-table row carrying the status flag. -/
structure StatusRegistry where
  date : String
  total_amount : ℚ
  commission : ℚ
  payments_count : Nat
  status : RegStatus
deriving DecidableEq

/-- Modelled from the spec: the registries table with status. -/
structure ConfirmStore where
  registries : List StatusRegistry
deriving DecidableEq

/-- Modelled from the spec: `confirm(date)` sets the status of the registry
with that date to confirmed; nothing happens for other dates (in particular
confirming an absent or already-confirmed date is a no-op, never an error —
the operation is total). -/
def confirm_registry (date : String) (s : ConfirmStore) : ConfirmStore :=
  ⟨s.registries.map (fun r => if r.date = date then { r with status := .confirmed } else r)⟩

/-- Modelled from the spec: `get_pending()` returns the registries with
status pending. -/
def get_pending_registries (s : ConfirmStore) : List StatusRegistry :=
  s.registries.filter (fun r => decide (r.status = .pending))

/-- Insertion step for the most-recent-date-first ordering of
`get_history`. -/
def insertByDateDesc (r : StatusRegistry) : List StatusRegistry → List StatusRegistry
  | [] => [r]
  | x :: xs => if x.date ≤ r.date then r :: x :: xs else x :: insertByDateDesc r xs

def sortByDateDesc (l : List StatusRegistry) : List StatusRegistry :=
  l.foldr insertByDateDesc []

/-- Modelled from the spec: `get_history(limit)` returns the registries,
most recent date first, truncated to `limit`. -/
def get_history (limit : Nat) (s : ConfirmStore) : List StatusRegistry :=
  (sortByDateDesc s.registries).take limit

/-! ## Aggregation queries (src/bot/database.py lines 209-300) -/

/-- Decimal digits of `n`, most significant first (`fuel`-driven structural
recursion; `fuel > n` suffices). -/
def natDigitsAux : Nat → Nat → List Char
  | 0, _ => []
  | fuel + 1, n =>
    if n < 10 then [Nat.digitChar n]
    else natDigitsAux fuel (n / 10) ++ [Nat.digitChar (n % 10)]

def natDigits (n : Nat) : List Char := natDigitsAux (n + 1) n

/-- Python's `f"{n:0wd}"` for `n : Nat`: decimal digits left-padded with `'0'`
to width `w`. -/
def padDigits (w n : Nat) : List Char :=
  List.replicate (w - (natDigits n).length) '0' ++ natDigits n

/-- The `LIKE` pattern `f"{year:04d}-{month:02d}-%"` of `get_monthly_stats`
(database.py line 213), without the trailing wildcard: a match is a prefix
match since the pattern holds no wildcard characters. -/
def monthPatternC (year month : Nat) : List Char :=
  padDigits 4 year ++ '-' :: (padDigits 2 month ++ ['-'])

/-- The `LIKE` pattern `f"{year:04d}-%"` of `get_yearly_stats` (line 248),
without the trailing wildcard. -/
def yearPatternC (year : Nat) : List Char :=
  padDigits 4 year ++ ['-']

structure MonthlyStats where
  registries_count : Nat
  total_income : ℚ
  total_commission : ℚ
  total_payments : Nat
  days_with_income : Nat
deriving DecidableEq

structure YearlyStats where
  total_income : ℚ
  total_commission : ℚ
  total_payments : Nat
deriving DecidableEq

structure AllTimeStats where
  registries_count : Nat
  total_income : ℚ
  total_commission : ℚ
  total_payments : Nat
deriving DecidableEq

/-- `Database.get_monthly_stats` (lines 209-243): aggregates over the
registries whose date matches the month's prefix pattern; SQL `SUM` over no
rows is NULL, coalesced to zero by the source, which the empty-list sums give
directly. -/
def get_monthly_stats (year month : Nat) (db : RegDB) : MonthlyStats :=
  let rs := db.registries.filter (fun r => isPrefixB (monthPatternC year month) r.date.toList)
  ⟨rs.length,
   (rs.map RegistryRow.total_amount).sum,
   (rs.map RegistryRow.commission).sum,
   (rs.map RegistryRow.payments_count).sum,
   (rs.filter (fun r => decide (0 < r.total_amount))).length⟩

/-- `Database.get_yearly_stats` (lines 245-272). -/
def get_yearly_stats (year : Nat) (db : RegDB) : YearlyStats :=
  let rs := db.registries.filter (fun r => isPrefixB (yearPatternC year) r.date.toList)
  ⟨(rs.map RegistryRow.total_amount).sum,
   (rs.map RegistryRow.commission).sum,
   (rs.map RegistryRow.payments_count).sum⟩

/-- `Database.get_all_time_stats` (lines 274-300): the same sums, unfiltered,
plus the registry count. -/
def get_all_time_stats (db : RegDB) : AllTimeStats :=
  ⟨db.registries.length,
   (db.registries.map RegistryRow.total_amount).sum,
   (db.registries.map RegistryRow.commission).sum,
   (db.registries.map RegistryRow.payments_count).sum⟩

/-- A date string beginning with a calendar `YYYY-MM-` shape: four decimal
digits, a dash, two decimal digits, a dash. -/
def calendarShaped (d : String) : Bool :=
  match d.toList with
  | a :: b :: c :: e :: '-' :: f :: g :: '-' :: _ =>
    a.isDigit && b.isDigit && c.isDigit && e.isDigit && f.isDigit && g.isDigit
  | _ => false

/-! ## Concrete inputs used by the witnesses and counterexamples -/

/-- A valid registry export with zero data rows before the summary line. -/
def c4input : String :=
  "r\ns\nИдентификатор платежа;Сумма платежа\nСумма принятых платежей;0"

def c4result : ParseResult := ⟨"unknown", 0, 0, 0, []⟩

/-- Ten data rows each carrying the decimal amount `0,1`, whose exact decimal
sum is 1. -/
def c4ten : String :=
  "x\ny\nИдентификатор платежа;Сумма платежа\na;0,1\na;0,1\na;0,1\na;0,1\na;0,1\na;0,1\na;0,1\na;0,1\na;0,1\na;0,1"

/-- The binary64 value of the decimal literal 0.1. -/
def flTenth : ℚ := Rat.divInt 3602879701896397 36028797018963968

/-- The binary64 left-to-right accumulation of ten copies of `flTenth`:
one unit in the last place below 1. -/
def c4tenTotal : ℚ := Rat.divInt 9007199254740991 9007199254740992

def c4tenResult : ParseResult :=
  ⟨"unknown", c4tenTotal, 0, 10, List.replicate 10 ⟨"a", flTenth, "RUB", "", "", ""⟩⟩

def c6fns : List (List Char) :=
  splitOnChar ';' "Идентификатор платежа;Сумма платежа;Сумма комиссии без НДС".toList

def c6row1 : List Char := "p2;5,00;0,10".toList

/-- A data row whose amount field is not numeric. -/
def c6bad : List Char := "p1;abc;0".toList

def c6row2 : List Char := "p3;2,50;0".toList

/-- A valid registry export with no date label in its first 5 lines. -/
def c8input : String :=
  "x\ny\nИдентификатор платежа;Сумма платежа\np1;7,50"

def c8hl : List Char := "Идентификатор платежа;Сумма платежа".toList

def c8dls : List (List Char) := ["p1;7,50".toList]

def c8payment : Payment := ⟨"p1", Rat.divInt 15 2, "RUB", "", "", ""⟩

/-- A parseable one-payment registry export, used as attachment content. -/
def csvContentA : String :=
  "r\nДата платежей: 2026-01-15\nИдентификатор платежа;Сумма платежа\np1;100,00"

def attA : Attachment := ⟨"r.csv", csvContentA⟩

def msgsA : List MsgData := [⟨"m1", [attA]⟩]

/-- An attachment whose content the parser rejects (fewer than 4 lines). -/
def attBad : Attachment := ⟨"bad.csv", "xx"⟩

/-- The bot's state right after `Database.init` on a fresh database. -/
def stA : BotState := ⟨[], ⟨1, [], []⟩, ⟨0, 0⟩⟩

/-- The result dict `_process_csv` produces for `csvContentA`. -/
def regDataA : RegistryData :=
  ⟨"2026-01-15", 100, 0, 1, some (tax_file_path "2026-01-15"),
   some (payments_file_path "2026-01-15"), [⟨"p1", 100, "RUB", "", "", ""⟩]⟩

def fpA : Fingerprint := fingerprintOf "m1" attA

/-- The registries-store invariant maintained by AUTOINCREMENT: every stored
registry id and every payment's registry reference is below the next id. -/
def RegWF (db : RegDB) : Prop :=
  (∀ r ∈ db.registries, r.id < db.nextId) ∧
  (∀ p ∈ db.payments, p.registry_id < db.nextId)

def c2pay1 : Payment := ⟨"a", 100, "RUB", "", "", ""⟩

def c2pay2 : Payment := ⟨"b", 200, "RUB", "", "", ""⟩

def c2r1 : RegistryData := ⟨"2026-01-15", 100, 1, 1, none, none, [c2pay1]⟩

/-- A different registry carrying the same date as `c2r1`. -/
def c2r2 : RegistryData := ⟨"2026-01-15", 200, 2, 1, none, none, [c2pay2]⟩

/-- A fresh registries store. -/
def regDb0 : RegDB := ⟨1, [], []⟩

/-- The store after ingesting `c2r1` and then re-ingesting `c2r2` under the
same date. -/
def c2db2 : RegDB := (save_registry c2r2 (save_registry c2r1 regDb0).2).2

def c1reg1 : StatusRegistry := ⟨"2026-01-15", 100, 1, 1, .pending⟩

def c1reg2 : StatusRegistry := ⟨"2026-01-16", 50, 2, 1, .pending⟩

def c1store : ConfirmStore := ⟨[c1reg1, c1reg2]⟩

/-- A registry whose date matches the yearly `LIKE '2026-%'` pattern without
beginning with a calendar `YYYY-MM-` prefix. -/
def c10r : RegistryRow := ⟨1, "2026-bad", 5, 1, 2, none, none⟩

def c10db : RegDB := ⟨2, [c10r], []⟩

/-- A registry carrying the sentinel date `"unknown"`. -/
def c10unknown : RegistryRow := ⟨2, "unknown", 7, 1, 3, none, none⟩

def c10dbA : RegDB := ⟨3, [c10unknown, c10r], []⟩

def c10dbB : RegDB := ⟨3, [c10r], []⟩

end Bot

namespace Bot

/-! ## Parser lemmas -/

lemma findDate_no_label :
    ∀ ll : List (List Char), (∀ l ∈ ll, isInfixB dateLabel l = false) →
      findDate ll = "unknown".toList := by
  intro ll
  induction ll with
  | nil => intro _; rfl
  | cons l rest ih =>
    intro h
    rw [findDate, h l (List.mem_cons_self l rest)]
    simp only [Bool.false_eq_true, if_false]
    exact ih fun x hx => h x (List.mem_cons_of_mem l hx)

lemma headerSplit_eq_none_iff (ll : List (List Char)) :
    headerSplit ll = none ↔ ∀ l ∈ ll, isInfixB headerToken l = false := by
  induction ll with
  | nil => simp [headerSplit]
  | cons l rest ih =>
    rw [headerSplit]
    cases hl : isInfixB headerToken l
    · simp [hl, ih]
    · simp [hl]

lemma processRows_total_sum (fns : List (List Char)) :
    ∀ (ls : List (List Char)) (ps : List Payment) (t c : ℚ),
      processRows fns ls = some (ps, t, c) → t = (ps.map Payment.amount).sum := by
  intro ls
  induction ls with
  | nil =>
    intro ps t c h
    rw [processRows] at h
    simp only [Option.some.injEq, Prod.mk.injEq] at h
    obtain ⟨h1, h2, -⟩ := h
    subst h1; subst h2
    simp
  | cons l rest ih =>
    intro ps t c h
    rw [processRows] at h
    split at h
    · exact ih ps t c h
    · split at h
      · -- summary row: break
        simp only [Option.some.injEq, Prod.mk.injEq] at h
        obtain ⟨h1, h2, -⟩ := h
        subst h1; subst h2
        simp
      · -- skipped row
        exact ih ps t c h
      · -- row error escaping to the top-level handler
        exact absurd h (by simp)
      · -- accepted payment
        split at h
        · exact absurd h (by simp)
        · rename_i ps' ta tc hrec
          simp only [Option.some.injEq, Prod.mk.injEq] at h
          obtain ⟨h1, h2, -⟩ := h
          subst h1; subst h2
          have hs := ih ps' ta tc hrec
          simp [hs]

lemma processRowsF64_spec (fns : List (List Char)) :
    ∀ (ls : List (List Char)) (ta tc : ℚ) (acc ps : List Payment) (t c : ℚ),
      processRowsF64 fns ta tc acc ls = some (ps, t, c) →
      ∃ newps, ps = acc.reverse ++ newps
        ∧ t = (newps.map Payment.amount).foldl (fun x a => f64round (x + a)) ta := by
  intro ls
  induction ls with
  | nil =>
    intro ta tc acc ps t c h
    rw [processRowsF64] at h
    simp only [Option.some.injEq, Prod.mk.injEq] at h
    obtain ⟨h1, h2, -⟩ := h
    exact ⟨[], by simp [← h1], by simp [← h2]⟩
  | cons l rest ih =>
    intro ta tc acc ps t c h
    rw [processRowsF64] at h
    split at h
    · exact ih ta tc acc ps t c h
    · split at h
      · -- summary row: break
        simp only [Option.some.injEq, Prod.mk.injEq] at h
        obtain ⟨h1, h2, -⟩ := h
        exact ⟨[], by simp [← h1], by simp [← h2]⟩
      · -- skipped row
        exact ih ta tc acc ps t c h
      · -- row error escaping to the top-level handler
        exact absurd h (by simp)
      · -- accepted payment
        rename_i p comm hrow
        obtain ⟨newps, hps, ht⟩ := ih _ _ _ ps t c h
        refine ⟨p :: newps, ?_, ?_⟩
        · rw [hps]
          simp
        · rw [ht]
          simp

/-! ## Claims C4, C5, C6, C8 -/

/-- Claim C4 (amended): for every input accepted by the float-faithful parser,
the returned registry's `payments_count` equals the number of accepted data
rows (the length of the returned payment list, one entry per accepted row),
and `total_amount` equals the IEEE-754 binary64 left-to-right accumulation of
the accepted rows' float-parsed amounts — not in general their exact decimal
sum, from which it can differ by rounding; an input with zero data rows still
yields `payments_count = 0` and `total_amount = 0`, not `none` (the witness
instantiates this at such an input, where the float accumulation is exact). -/
theorem C4_parser_count_and_float_accumulation (content : String) (r : ParseResult)
    (h : parse_yookassa_csv_f64 content = some r) :
    r.payments_count = r.payments.length ∧
    r.total_amount = floatSum (r.payments.map Payment.amount) := by
  unfold parse_yookassa_csv_f64 parseLinesF64 at h
  split at h
  · exact absurd h (by simp)
  · split at h
    · exact absurd h (by simp)
    · split at h
      · exact absurd h (by simp)
      · rename_i ps total comm hproc
        injection h with h
        subst h
        refine ⟨rfl, ?_⟩
        obtain ⟨newps, hps, ht⟩ := processRowsF64_spec _ _ _ _ _ _ _ _ hproc
        rw [List.reverse_nil, List.nil_append] at hps
        subst hps
        exact ht

/-- Claim C4, counterexample to the claim as stated: ten accepted rows each
carrying the decimal amount `0,1` have exact decimal sum 1, but the program's
float accumulation returns `total_amount` one ulp below 1 — `total_amount`
is not the exact decimal sum of the accepted rows' amounts. -/
theorem C4_counterexample :
    parse_yookassa_csv_f64 c4ten = some c4tenResult
    ∧ c4tenResult.payments_count = 10
    ∧ c4tenResult.total_amount ≠ 1 :=
  ⟨by with_unfolding_all rfl, rfl, by with_unfolding_all decide⟩

theorem C4_float_witness :
    parse_yookassa_csv_f64 c4input = some c4result
    ∧ c4result.payments_count = c4result.payments.length
    ∧ c4result.total_amount = floatSum (c4result.payments.map Payment.amount) :=
  ⟨by with_unfolding_all rfl,
   C4_parser_count_and_float_accumulation c4input c4result (by with_unfolding_all rfl)⟩

/-- Claim C5: `parse_yookassa_csv` returns `none` exactly when the input has
fewer than 4 lines, when no line contains the header marker token, or when the
row loop raises an exception that the top-level handler converts to `none`
(modelled by `processRows` returning `none`); for all other inputs it returns
a registry result. -/
theorem C5_parse_failure_characterization (content : String) :
    parse_yookassa_csv content = none ↔
      ((splitOnChar '\n' (pyStrip content.toList)).length < 4
       ∨ (∀ l ∈ splitOnChar '\n' (pyStrip content.toList), isInfixB headerToken l = false)
       ∨ ∃ hl dls,
           headerSplit (splitOnChar '\n' (pyStrip content.toList)) = some (hl, dls)
           ∧ processRows (splitOnChar ';' hl) dls = none) := by
  unfold parse_yookassa_csv parseLines
  generalize splitOnChar '\n' (pyStrip content.toList) = lines
  by_cases h4 : lines.length < 4
  · simp [h4]
  · rw [if_neg h4]
    cases hh : headerSplit lines with
    | none =>
      have hall := (headerSplit_eq_none_iff lines).mp hh
      exact ⟨fun _ => Or.inr (Or.inl hall), fun _ => rfl⟩
    | some pr =>
      obtain ⟨hl, dls⟩ := pr
      cases hp : processRows (splitOnChar ';' hl) dls with
      | none =>
        constructor
        · intro _
          exact Or.inr (Or.inr ⟨hl, dls, rfl, hp⟩)
        · intro _
          simp [hp]
      | some out =>
        obtain ⟨ps, out2⟩ := out
        obtain ⟨total, comm⟩ := out2
        constructor
        · intro hcontra
          simp [hp] at hcontra
        · intro hdisj
          exfalso
          rcases hdisj with hlt | hall | ⟨hl', dls', hh', hp'⟩
          · exact h4 hlt
          · exact absurd ((headerSplit_eq_none_iff lines).mpr hall) (by simp [hh])
          · simp only [Option.some.injEq, Prod.mk.injEq] at hh'
            obtain ⟨he1, he2⟩ := hh'
            subst he1; subst he2
            exact absurd hp' (by simp [hp])

/-- Claim C6: a data row whose numeric fields fail to parse (its identifier is
present and non-blank, but the row's outcome is the inner-handler skip) is
skipped alone: the row loop over any surrounding rows gives exactly the result
of the loop without that row — it contributes nothing to the totals or the
payment list, and every other row is processed unchanged. -/
theorem C6_bad_numeric_row_skipped (fns : List (List Char)) (l : List Char)
    (ls1 ls2 : List (List Char)) (hne : l ≠ [])
    (_hid : idTruthy fns (splitOnChar ';' l) = true)
    (hskip : rowOutcome fns (splitOnChar ';' l) = .skip) :
    processRows fns (ls1 ++ l :: ls2) = processRows fns (ls1 ++ ls2) := by
  induction ls1 with
  | nil =>
    rw [List.nil_append, List.nil_append, processRows, if_neg hne, hskip]
  | cons a as ih =>
    rw [List.cons_append, List.cons_append, processRows, processRows]
    by_cases ha : a = []
    · rw [if_pos ha, if_pos ha, ih]
    · rw [if_neg ha, if_neg ha]
      cases ho : rowOutcome fns (splitOnChar ';' a) <;>
        first
          | rfl
          | exact ih
          | rw [ih]

theorem C6_witness :
    c6bad ≠ [] ∧ idTruthy c6fns (splitOnChar ';' c6bad) = true ∧
    rowOutcome c6fns (splitOnChar ';' c6bad) = .skip ∧
    processRows c6fns ([c6row1] ++ c6bad :: [c6row2]) = processRows c6fns ([c6row1] ++ [c6row2]) :=
  ⟨by decide, by with_unfolding_all rfl, by with_unfolding_all rfl,
   C6_bad_numeric_row_skipped c6fns c6bad [c6row1] [c6row2] (by decide)
     (by with_unfolding_all rfl) (by with_unfolding_all rfl)⟩

/-- Claim C8: an input whose first 5 lines hold no payment-date label but
which is otherwise valid (enough lines, header found, row loop succeeds) does
not fail: the parser returns a registry with the sentinel date `"unknown"` and
the payment list fully populated from the data rows. -/
theorem C8_missing_date_label_unknown (content : String) (hl : List Char)
    (dls : List (List Char)) (ps : List Payment) (t c : ℚ)
    (h4 : ¬ (splitOnChar '\n' (pyStrip content.toList)).length < 4)
    (hd : ∀ l ∈ (splitOnChar '\n' (pyStrip content.toList)).take 5,
        isInfixB dateLabel l = false)
    (hh : headerSplit (splitOnChar '\n' (pyStrip content.toList)) = some (hl, dls))
    (hp : processRows (splitOnChar ';' hl) dls = some (ps, t, c)) :
    parse_yookassa_csv content = some ⟨"unknown", t, c, ps.length, ps⟩ := by
  unfold parse_yookassa_csv parseLines
  rw [if_neg h4]
  simp only [hh, hp, findDate_no_label _ hd]
  rfl

theorem C8_witness :
    parse_yookassa_csv c8input = some ⟨"unknown", Rat.divInt 15 2, 0, 1, [c8payment]⟩ :=
  C8_missing_date_label_unknown c8input c8hl c8dls [c8payment] (Rat.divInt 15 2) 0
    (by decide) (by decide) (by with_unfolding_all rfl) (by with_unfolding_all rfl)

/-! ## Ingestion-cycle lemmas -/

lemma processAttachment_reg_stats (decode : String → Option String) (mid : String)
    (st : BotState) (a : Attachment) :
    (processAttachment decode mid st a).1.reg = st.reg ∧
    (processAttachment decode mid st a).1.stats = st.stats := by
  unfold processAttachment
  split
  · exact ⟨rfl, rfl⟩
  · split
    · exact ⟨rfl, rfl⟩
    · exact ⟨rfl, rfl⟩

lemma mem_mark_processed_self (fp : Fingerprint) (l : List Fingerprint) :
    fp ∈ mark_processed fp l := by
  unfold mark_processed
  split
  · assumption
  · exact List.mem_append_right _ (List.mem_singleton.mpr rfl)

lemma mem_mark_processed_of_mem (fp fp2 : Fingerprint) (l : List Fingerprint)
    (h : fp ∈ l) : fp ∈ mark_processed fp2 l := by
  unfold mark_processed
  split
  · exact h
  · exact List.mem_append_left _ h

lemma processAttachment_processed_mono (decode : String → Option String) (mid : String)
    (st : BotState) (a : Attachment) (fp : Fingerprint) (h : fp ∈ st.processed) :
    fp ∈ (processAttachment decode mid st a).1.processed := by
  unfold processAttachment
  split
  · exact h
  · split
    · exact h
    · exact mem_mark_processed_of_mem _ _ _ h

lemma processAttachment_records (decode : String → Option String) (mid : String)
    (st : BotState) (a : Attachment) (hsome : process_csv decode a.content ≠ none) :
    fingerprintOf mid a ∈ (processAttachment decode mid st a).1.processed := by
  unfold processAttachment
  split
  · rename_i hproc
    unfold is_processed at hproc
    exact of_decide_eq_true hproc
  · split
    · rename_i hnone
      exact absurd hnone hsome
    · exact mem_mark_processed_self _ _

lemma processAttachment_some_result (decode : String → Option String) (mid : String)
    (st : BotState) (a : Attachment) (r : RegistryData)
    (h : (processAttachment decode mid st a).2 = some r) :
    process_csv decode a.content = some r := by
  unfold processAttachment at h
  split at h
  · exact absurd h (by simp)
  · split at h
    · exact absurd h (by simp)
    · rename_i r' heq
      simp only [Option.some.injEq] at h
      subst h
      exact heq

lemma processAttachment_noop (decode : String → Option String) (mid : String)
    (st : BotState) (a : Attachment)
    (h : process_csv decode a.content = none ∨ fingerprintOf mid a ∈ st.processed) :
    processAttachment decode mid st a = (st, none) := by
  unfold processAttachment
  split
  · rfl
  · rename_i hnp
    rcases h with hn | hm
    · rw [hn]
    · exact absurd (decide_eq_true hm) hnp

lemma runItems_reg_stats (decode : String → Option String) :
    ∀ (items : List (String × Attachment)) (st : BotState),
      (runItems decode st items).1.reg = st.reg ∧
      (runItems decode st items).1.stats = st.stats := by
  intro items
  induction items with
  | nil => exact fun st => ⟨rfl, rfl⟩
  | cons it rest ih =>
    intro st
    obtain ⟨mid, a⟩ := it
    have hpa := processAttachment_reg_stats decode mid st a
    have hr := ih (processAttachment decode mid st a).1
    exact ⟨hr.1.trans hpa.1, hr.2.trans hpa.2⟩

lemma runItems_processed_mono (decode : String → Option String) :
    ∀ (items : List (String × Attachment)) (st : BotState) (fp : Fingerprint),
      fp ∈ st.processed → fp ∈ (runItems decode st items).1.processed := by
  intro items
  induction items with
  | nil => exact fun st fp h => h
  | cons it rest ih =>
    intro st fp h
    obtain ⟨mid, a⟩ := it
    exact ih _ fp (processAttachment_processed_mono decode mid st a fp h)

lemma runItems_records (decode : String → Option String) :
    ∀ (items : List (String × Attachment)) (st : BotState) (mid : String) (a : Attachment),
      (mid, a) ∈ items → process_csv decode a.content ≠ none →
      fingerprintOf mid a ∈ (runItems decode st items).1.processed := by
  intro items
  induction items with
  | nil =>
    intro st mid a h
    exact absurd h (by simp)
  | cons it rest ih =>
    intro st mid a hmem hsome
    obtain ⟨mid', a'⟩ := it
    rcases List.mem_cons.mp hmem with heq | hrest
    · obtain ⟨he1, he2⟩ := Prod.mk.injEq .. ▸ heq
      subst he1; subst he2
      exact runItems_processed_mono decode rest _ _
        (processAttachment_records decode mid st a hsome)
    · exact ih _ mid a hrest hsome

lemma runItems_results_from (decode : String → Option String) :
    ∀ (items : List (String × Attachment)) (st : BotState) (r : RegistryData),
      r ∈ (runItems decode st items).2 →
      ∃ mid a, (mid, a) ∈ items ∧ process_csv decode a.content = some r := by
  intro items
  induction items with
  | nil =>
    intro st r h
    exact absurd h (by simp [runItems])
  | cons it rest ih =>
    intro st r hr
    obtain ⟨mid', a'⟩ := it
    rw [runItems] at hr
    cases hq : (processAttachment decode mid' st a').2 with
    | none =>
      rw [hq] at hr
      obtain ⟨mid, a, hm, he⟩ := ih _ r hr
      exact ⟨mid, a, List.mem_cons_of_mem _ hm, he⟩
    | some r' =>
      rw [hq] at hr
      rcases List.mem_cons.mp hr with heq | htail
      · subst heq
        exact ⟨mid', a', List.mem_cons_self _ _,
          processAttachment_some_result decode mid' st a' r hq⟩
      · obtain ⟨mid, a, hm, he⟩ := ih _ r htail
        exact ⟨mid, a, List.mem_cons_of_mem _ hm, he⟩

lemma runItems_second (decode : String → Option String) :
    ∀ (items : List (String × Attachment)) (st : BotState),
      (∀ mid a, (mid, a) ∈ items →
        process_csv decode a.content = none ∨ fingerprintOf mid a ∈ st.processed) →
      runItems decode st items = (st, []) := by
  intro items
  induction items with
  | nil => exact fun st _ => rfl
  | cons it rest ih =>
    intro st hall
    obtain ⟨mid', a'⟩ := it
    have hpa := processAttachment_noop decode mid' st a'
      (hall mid' a' (List.mem_cons_self _ _))
    have hrest := ih st fun mid a hm => hall mid a (List.mem_cons_of_mem _ hm)
    rw [runItems]
    simp [hpa, hrest]

lemma fingerprintOf_inj (mid mid' : String) (a a' : Attachment)
    (h : fingerprintOf mid a = fingerprintOf mid' a') : mid = mid' ∧ a = a' := by
  obtain ⟨af, ac⟩ := a
  obtain ⟨af', ac'⟩ := a'
  unfold fingerprintOf sha256_hex at h
  injection h with h1 h2 h3
  refine ⟨h1, ?_⟩
  have hf : af = af' := h2
  have hc : ac = ac' := h3
  rw [hf, hc]

lemma processAttachment_not_mem (decode : String → Option String) (mid' : String)
    (st : BotState) (a' : Attachment) (fp : Fingerprint)
    (hne : fp ≠ fingerprintOf mid' a') (hnm : fp ∉ st.processed) :
    fp ∉ (processAttachment decode mid' st a').1.processed := by
  unfold processAttachment
  split
  · exact hnm
  · split
    · exact hnm
    · intro hmem
      have hmem2 : fp ∈ mark_processed (fingerprintOf mid' a') st.processed := hmem
      unfold mark_processed at hmem2
      split at hmem2
      · exact hnm hmem2
      · rcases List.mem_append.mp hmem2 with h1 | h2
        · exact hnm h1
        · rw [List.mem_singleton] at h2
          exact hne h2

lemma mem_runItems_tail (decode : String → Option String) (mid' : String) (a' : Attachment)
    (st : BotState) (rest : List (String × Attachment)) (x : RegistryData)
    (hx : x ∈ (runItems decode (processAttachment decode mid' st a').1 rest).2) :
    x ∈ (runItems decode st ((mid', a') :: rest)).2 := by
  rw [runItems]
  cases hq : (processAttachment decode mid' st a').2 with
  | none => simpa [hq] using hx
  | some r' =>
    simp only [hq]
    exact List.mem_cons_of_mem _ hx

lemma runItems_complete (decode : String → Option String) :
    ∀ (items : List (String × Attachment)) (st : BotState) (mid : String) (a : Attachment)
      (r : RegistryData), (mid, a) ∈ items → process_csv decode a.content = some r →
      fingerprintOf mid a ∉ st.processed → r ∈ (runItems decode st items).2 := by
  intro items
  induction items with
  | nil =>
    intro st mid a r h
    exact absurd h (by simp)
  | cons it rest ih =>
    intro st mid a r hmem hsome hnm
    obtain ⟨mid', a'⟩ := it
    by_cases heq : (mid', a') = (mid, a)
    · obtain ⟨he1, he2⟩ := Prod.mk.injEq .. ▸ heq
      rw [he1, he2]
      have hskip : is_processed (fingerprintOf mid a) st = false := by
        unfold is_processed
        exact decide_eq_false hnm
      have hpa : processAttachment decode mid st a =
          ({ st with processed := mark_processed (fingerprintOf mid a) st.processed },
           some r) := by
        unfold processAttachment
        rw [hskip]
        simp [hsome]
      have hres : (runItems decode st ((mid, a) :: rest)).2 =
          r :: (runItems decode
            { st with processed := mark_processed (fingerprintOf mid a) st.processed }
            rest).2 := by
        rw [runItems]
        simp [hpa]
      rw [hres]
      exact List.mem_cons_self _ _
    · have hrest : (mid, a) ∈ rest := by
        rcases List.mem_cons.mp hmem with h1 | h1
        · exact absurd h1.symm heq
        · exact h1
      have hfpne : fingerprintOf mid a ≠ fingerprintOf mid' a' := by
        intro hfp
        obtain ⟨h1, h2⟩ := fingerprintOf_inj mid mid' a a' hfp
        exact heq (by rw [h1, h2])
      exact mem_runItems_tail decode mid' a' st rest r
        (ih _ mid a r hrest hsome
          (processAttachment_not_mem decode mid' st a' _ hfpne hnm))

/-! ## Claims C3, C7, C9 -/

/-- Claim C3 (amended): for every cycle input, `check_and_process` records the
fingerprint of every attachment whose parse yields a usable registry, returns
exactly the registries of such attachments — every returned registry stems
from a usable attachment, and conversely the registry of every not yet
fingerprinted attachment whose parse succeeds is appended to the returned
sequence — and calls `update_stats` once with the number of messages scanned
and the number of new results; but it does not persist any registry: the
registries store is left unchanged (`save_registry` is never called during
the cycle; persistence happens only later, in the scheduler's report
sender). -/
theorem C3_cycle_behavior (decode : String → Option String) (msgs : List MsgData)
    (st : BotState) :
    (check_and_process decode msgs st).1.reg = st.reg
    ∧ (check_and_process decode msgs st).1.stats =
        update_stats msgs.length (check_and_process decode msgs st).2.length st.stats
    ∧ (∀ mid a, (mid, a) ∈ attachmentItems msgs → process_csv decode a.content ≠ none →
        fingerprintOf mid a ∈ (check_and_process decode msgs st).1.processed)
    ∧ (∀ r, r ∈ (check_and_process decode msgs st).2 → ∃ mid a,
        (mid, a) ∈ attachmentItems msgs ∧ process_csv decode a.content = some r)
    ∧ (∀ mid a r, (mid, a) ∈ attachmentItems msgs →
        process_csv decode a.content = some r →
        fingerprintOf mid a ∉ st.processed →
        r ∈ (check_and_process decode msgs st).2) := by
  refine ⟨?_, ?_, ?_, ?_, ?_⟩
  · exact (runItems_reg_stats decode (attachmentItems msgs) st).1
  · show update_stats _ _ (runItems decode st (attachmentItems msgs)).1.stats = _
    rw [(runItems_reg_stats decode (attachmentItems msgs) st).2]
    rfl
  · intro mid a hmem hsome
    exact runItems_records decode (attachmentItems msgs) st mid a hmem hsome
  · intro r hr
    exact runItems_results_from decode (attachmentItems msgs) st r hr
  · intro mid a r hmem hsome hnm
    exact runItems_complete decode (attachmentItems msgs) st mid a r hmem hsome hnm

/-- Claim C3, counterexample to the claim as stated: a cycle over one message
whose attachment parses to a usable registry produces a non-empty result
sequence, yet nothing is persisted through `save_registry` — the registries
store is still empty after the cycle, contradicting "persists that registry
via upsert_registry (save_registry)". -/
theorem C3_counterexample :
    (check_and_process (fun s => some s) msgsA stA).2 ≠ []
    ∧ (check_and_process (fun s => some s) msgsA stA).1.reg.registries = [] :=
  ⟨by with_unfolding_all decide, by with_unfolding_all rfl⟩

theorem C3_witness :
    (check_and_process (fun s => some s) msgsA stA).1.reg = stA.reg
    ∧ fingerprintOf "m1" attA ∈ (check_and_process (fun s => some s) msgsA stA).1.processed
    ∧ regDataA ∈ (check_and_process (fun s => some s) msgsA stA).2 := by
  have h := C3_cycle_behavior (fun s => some s) msgsA stA
  exact ⟨h.1, h.2.2.1 "m1" attA (by decide) (by with_unfolding_all decide),
    h.2.2.2.2 "m1" attA regDataA (by decide) (by with_unfolding_all rfl) (by simp [stA])⟩

/-- Claim C7: `mark_processed` is idempotent — inserting a fingerprint already
present is a no-op (and, being total, never an error) — and re-running the
cycle on the same deliveries produces zero new fingerprint rows and no
results: every attachment whose parse succeeded in the first run has its
fingerprint recorded, so `is_processed` is true and the second run skips it
before parsing. -/
theorem C7_fingerprint_idempotent (decode : String → Option String) (msgs : List MsgData)
    (st : BotState) :
    (∀ (l : List Fingerprint) (fp : Fingerprint), fp ∈ l → mark_processed fp l = l)
    ∧ (check_and_process decode msgs ((check_and_process decode msgs st).1)).2 = []
    ∧ (check_and_process decode msgs ((check_and_process decode msgs st).1)).1.processed =
        (check_and_process decode msgs st).1.processed
    ∧ (∀ mid a, (mid, a) ∈ attachmentItems msgs → process_csv decode a.content ≠ none →
        is_processed (fingerprintOf mid a) ((check_and_process decode msgs st).1) = true) := by
  have hall : ∀ mid a, (mid, a) ∈ attachmentItems msgs →
      process_csv decode a.content = none ∨
      fingerprintOf mid a ∈ ((check_and_process decode msgs st).1).processed := by
    intro mid a hmem
    by_cases hn : process_csv decode a.content = none
    · exact Or.inl hn
    · exact Or.inr (runItems_records decode (attachmentItems msgs) st mid a hmem hn)
  have hsec := runItems_second decode (attachmentItems msgs)
    ((check_and_process decode msgs st).1) hall
  refine ⟨?_, ?_, ?_, ?_⟩
  · intro l fp h
    unfold mark_processed
    rw [if_pos h]
  · show (runItems decode ((check_and_process decode msgs st).1) (attachmentItems msgs)).2 = []
    rw [hsec]
  · show (runItems decode ((check_and_process decode msgs st).1) (attachmentItems msgs)).1.processed = _
    rw [hsec]
  · intro mid a hmem hsome
    exact decide_eq_true (runItems_records decode (attachmentItems msgs) st mid a hmem hsome)

theorem C7_witness :
    mark_processed fpA [fpA] = [fpA]
    ∧ (check_and_process (fun s => some s) msgsA
        ((check_and_process (fun s => some s) msgsA stA).1)).2 = []
    ∧ (check_and_process (fun s => some s) msgsA
        ((check_and_process (fun s => some s) msgsA stA).1)).1.processed =
        (check_and_process (fun s => some s) msgsA stA).1.processed := by
  have h := C7_fingerprint_idempotent (fun s => some s) msgsA stA
  exact ⟨h.1 [fpA] fpA (by decide), h.2.1, h.2.2.1⟩

/-- Claim C9: an attachment whose processing yields no usable result (decode
failure or parse failure, both modelled by `process_csv` returning `none`)
leaves the cycle's state untouched for that attachment: no fingerprint is
recorded, the registries store is unchanged, it contributes no result, and
`is_processed` is still false afterwards — so every subsequent cycle fetches
and re-parses the same attachment again. -/
theorem C9_failed_attachment_not_recorded (decode : String → Option String) (mid : String)
    (a : Attachment) (st : BotState)
    (hfail : process_csv decode a.content = none)
    (hnew : is_processed (fingerprintOf mid a) st = false) :
    (check_and_process decode [⟨mid, [a]⟩] st).2 = []
    ∧ (check_and_process decode [⟨mid, [a]⟩] st).1.processed = st.processed
    ∧ (check_and_process decode [⟨mid, [a]⟩] st).1.reg = st.reg
    ∧ is_processed (fingerprintOf mid a) ((check_and_process decode [⟨mid, [a]⟩] st).1) = false := by
  have hitems : attachmentItems [⟨mid, [a]⟩] = [(mid, a)] := rfl
  have hpa := processAttachment_noop decode mid st a (Or.inl hfail)
  have hrun : runItems decode st [(mid, a)] = (st, []) := by
    rw [runItems]
    simp [hpa, runItems]
  refine ⟨?_, ?_, ?_, ?_⟩
  · show (runItems decode st (attachmentItems [⟨mid, [a]⟩])).2 = []
    rw [hitems, hrun]
  · show (runItems decode st (attachmentItems [⟨mid, [a]⟩])).1.processed = st.processed
    rw [hitems, hrun]
  · show (runItems decode st (attachmentItems [⟨mid, [a]⟩])).1.reg = st.reg
    rw [hitems, hrun]
  · show decide (fingerprintOf mid a ∈
      (runItems decode st (attachmentItems [⟨mid, [a]⟩])).1.processed) = false
    rw [hitems, hrun]
    exact hnew

theorem C9_witness :
    (check_and_process (fun s => some s) [⟨"m2", [attBad]⟩] stA).2 = []
    ∧ (check_and_process (fun s => some s) [⟨"m2", [attBad]⟩] stA).1.processed = stA.processed
    ∧ is_processed (fingerprintOf "m2" attBad)
        ((check_and_process (fun s => some s) [⟨"m2", [attBad]⟩] stA).1) = false := by
  have h := C9_failed_attachment_not_recorded (fun s => some s) "m2" attBad stA
    (by with_unfolding_all rfl) (by decide)
  exact ⟨h.1, h.2.1, h.2.2.2⟩

/-! ## Record-store lemmas -/

lemma find?_append_of_none {α : Type} (p : α → Bool) (l1 l2 : List α)
    (h : ∀ x ∈ l1, p x = false) : (l1 ++ l2).find? p = l2.find? p := by
  induction l1 with
  | nil => rfl
  | cons a as ih =>
    rw [List.cons_append, List.find?]
    rw [h a (List.mem_cons_self a as)]
    exact ih fun x hx => h x (List.mem_cons_of_mem a hx)

lemma filter_all_false {α : Type} (p : α → Bool) (l : List α)
    (h : ∀ x ∈ l, p x = false) : l.filter p = [] := by
  induction l with
  | nil => rfl
  | cons a as ih =>
    rw [List.filter_cons, h a (List.mem_cons_self a as)]
    simp only [Bool.false_eq_true, if_false]
    exact ih fun x hx => h x (List.mem_cons_of_mem a hx)

lemma filter_all_true {α : Type} (p : α → Bool) (l : List α)
    (h : ∀ x ∈ l, p x = true) : l.filter p = l := by
  induction l with
  | nil => rfl
  | cons a as ih =>
    rw [List.filter_cons, h a (List.mem_cons_self a as)]
    simp only [if_true]
    rw [ih fun x hx => h x (List.mem_cons_of_mem a hx)]

/-! ## Claim C2 -/

/-- Claim C2 (amended): on any well-formed store, `save_registry` of a
registry `data` returns the fresh AUTOINCREMENT id, replaces the registry row
for that date entirely (afterwards the only row carrying the date holds
`data`'s aggregates under the fresh id), and `get_registry(date)` returns
exactly `data`'s payments — but the payment rows of a previously stored
registry for that date are NOT deleted: the payments table keeps every old
row, orphaned under the replaced registry's id and merely invisible to
`get_registry`. -/
theorem C2_upsert_replaces_row_but_orphans_payments (db : RegDB) (data : RegistryData)
    (hwf : RegWF db) :
    (save_registry data db).1 = db.nextId
    ∧ get_registry data.date (save_registry data db).2 =
        some (⟨db.nextId, data.date, data.total_amount, data.commission,
               data.payments_count, data.tax_file, data.payments_file⟩,
              data.payments.map (paymentToRow db.nextId))
    ∧ (∀ r ∈ (save_registry data db).2.registries, r.date = data.date →
         r = ⟨db.nextId, data.date, data.total_amount, data.commission,
              data.payments_count, data.tax_file, data.payments_file⟩)
    ∧ (save_registry data db).2.payments =
        db.payments ++ data.payments.map (paymentToRow db.nextId)
    ∧ RegWF (save_registry data db).2 := by
  have hfind : (save_registry data db).2.registries.find?
      (fun r => decide (r.date = data.date)) =
      some ⟨db.nextId, data.date, data.total_amount, data.commission,
            data.payments_count, data.tax_file, data.payments_file⟩ := by
    have hside : ∀ x ∈ db.registries.filter (fun r => decide (r.date ≠ data.date)),
        (fun r : RegistryRow => decide (r.date = data.date)) x = false := by
      intro x hx
      have hxne := List.of_mem_filter hx
      simp only [decide_eq_true_eq] at hxne
      exact decide_eq_false hxne
    show (db.registries.filter (fun r : RegistryRow => decide (r.date ≠ data.date)) ++
        ([⟨db.nextId, data.date, data.total_amount, data.commission,
          data.payments_count, data.tax_file, data.payments_file⟩] : List RegistryRow)).find?
        (fun r : RegistryRow => decide (r.date = data.date)) = _
    rw [find?_append_of_none _ _ _ hside]
    simp [List.find?]
  have hpay : (save_registry data db).2.payments.filter
      (fun p => decide (p.registry_id = db.nextId)) =
      data.payments.map (paymentToRow db.nextId) := by
    have hold : ∀ p ∈ db.payments,
        (fun p : PaymentRow => decide (p.registry_id = db.nextId)) p = false := by
      intro p hp
      have := hwf.2 p hp
      exact decide_eq_false (by omega)
    have hnew : ∀ q ∈ data.payments.map (paymentToRow db.nextId),
        (fun p : PaymentRow => decide (p.registry_id = db.nextId)) q = true := by
      intro q hq
      obtain ⟨p0, -, hp0⟩ := List.mem_map.mp hq
      subst hp0
      exact decide_eq_true rfl
    show (db.payments ++ data.payments.map (paymentToRow db.nextId)).filter _ = _
    rw [List.filter_append, filter_all_false _ _ hold, filter_all_true _ _ hnew,
      List.nil_append]
  refine ⟨rfl, ?_, ?_, rfl, ?_⟩
  · unfold get_registry
    rw [hfind]
    exact congrArg (fun l => some ((⟨db.nextId, data.date, data.total_amount,
      data.commission, data.payments_count, data.tax_file, data.payments_file⟩ :
        RegistryRow), l)) hpay
  · intro r hr hdate
    unfold save_registry at hr
    rcases List.mem_append.mp hr with hmem | hmem
    · have := List.of_mem_filter hmem
      simp only [decide_eq_true_eq] at this
      exact absurd hdate this
    · simpa using hmem
  · constructor
    · intro r hr
      unfold save_registry at hr
      rcases List.mem_append.mp hr with hmem | hmem
      · have := hwf.1 r (List.mem_of_mem_filter hmem)
        show r.id < db.nextId + 1
        omega
      · simp only [List.mem_singleton] at hmem
        subst hmem
        show db.nextId < db.nextId + 1
        omega
    · intro p hp
      unfold save_registry at hp
      rcases List.mem_append.mp hp with hmem | hmem
      · have := hwf.2 p hmem
        show p.registry_id < db.nextId + 1
        omega
      · obtain ⟨p0, -, hp0⟩ := List.mem_map.mp hmem
        subst hp0
        show db.nextId < db.nextId + 1
        omega

/-- Claim C2, counterexample to the claim as stated: after re-ingesting
`c2r2` under the date already held by `c2r1`, a payment row originating from
`c2r1` (payment id `"a"`, linked to the replaced registry row's id 1) is still
stored in the payments table, even though `get_registry` for that date returns
exactly `c2r2`'s payments — so "no payment row originating from r1 remains
stored" is false. -/
theorem C2_counterexample :
    paymentToRow 1 c2pay1 ∈ c2db2.payments
    ∧ get_registry "2026-01-15" c2db2 =
        some (⟨2, "2026-01-15", 200, 2, 1, none, none⟩, [paymentToRow 2 c2pay2]) :=
  ⟨by with_unfolding_all decide, by with_unfolding_all rfl⟩

theorem C2_witness :
    RegWF regDb0
    ∧ (save_registry c2r1 regDb0).1 = regDb0.nextId
    ∧ get_registry c2r1.date (save_registry c2r1 regDb0).2 =
        some (⟨regDb0.nextId, c2r1.date, c2r1.total_amount, c2r1.commission,
               c2r1.payments_count, c2r1.tax_file, c2r1.payments_file⟩,
              c2r1.payments.map (paymentToRow regDb0.nextId)) := by
  have h := C2_upsert_replaces_row_but_orphans_payments regDb0 c2r1
    (by simp [RegWF, regDb0])
  exact ⟨by simp [RegWF, regDb0], h.1, h.2.1⟩

/-! ## Confirmation-store lemmas -/

lemma confirm_foldl_registries :
    ∀ (ds : List String) (s : ConfirmStore),
      (ds.foldl (fun st d => confirm_registry d st) s).registries =
        s.registries.map
          (fun r => if r.date ∈ ds then { r with status := RegStatus.confirmed } else r) := by
  intro ds
  induction ds with
  | nil =>
    intro s
    simp
  | cons d ds ih =>
    intro s
    rw [List.foldl_cons, ih]
    unfold confirm_registry
    rw [List.map_map]
    apply List.map_congr_left
    intro r _
    by_cases h1 : r.date = d
    · simp [Function.comp, h1]
    · by_cases h2 : r.date ∈ ds
      · simp [Function.comp, h1, h2]
      · have h3 : r.date ∉ d :: ds := by
          simp [h1, h2]
        simp [Function.comp, h1, h2, h3]

lemma filter_pending_after_map (ds : List String) :
    ∀ l : List StatusRegistry, (∀ r ∈ l, r.status = .pending) →
      ((l.map (fun r => if r.date ∈ ds then { r with status := RegStatus.confirmed } else r)).filter
          (fun r => decide (r.status = RegStatus.pending))) =
        l.filter (fun r => decide (r.date ∉ ds)) := by
  intro l
  induction l with
  | nil => intro _; rfl
  | cons a as ih =>
    intro h
    have ha := h a (List.mem_cons_self a as)
    have htail := ih fun r hr => h r (List.mem_cons_of_mem a hr)
    rw [List.map_cons, List.filter_cons, List.filter_cons]
    by_cases hd : a.date ∈ ds
    · simp [hd, htail]
    · simp [hd, ha, htail]

lemma mem_insertByDateDesc_of_mem (r x : StatusRegistry) :
    ∀ l : List StatusRegistry, x ∈ l → x ∈ insertByDateDesc r l := by
  intro l
  induction l with
  | nil => intro h; exact absurd h (by simp)
  | cons a as ih =>
    intro h
    rw [insertByDateDesc]
    split
    · exact List.mem_cons_of_mem r h
    · rcases List.mem_cons.mp h with he | ht
      · exact he ▸ List.mem_cons_self a _
      · exact List.mem_cons_of_mem a (ih ht)

lemma self_mem_insertByDateDesc (r : StatusRegistry) :
    ∀ l : List StatusRegistry, r ∈ insertByDateDesc r l := by
  intro l
  induction l with
  | nil => exact List.mem_singleton.mpr rfl
  | cons a as ih =>
    rw [insertByDateDesc]
    split
    · exact List.mem_cons_self r _
    · exact List.mem_cons_of_mem a ih

lemma mem_sortByDateDesc_of_mem (x : StatusRegistry) :
    ∀ l : List StatusRegistry, x ∈ l → x ∈ sortByDateDesc l := by
  intro l
  induction l with
  | nil => intro h; exact absurd h (by simp)
  | cons a as ih =>
    intro h
    unfold sortByDateDesc
    rw [List.foldr_cons]
    rcases List.mem_cons.mp h with he | ht
    · exact he ▸ self_mem_insertByDateDesc a _
    · exact mem_insertByDateDesc_of_mem a x _ (ih ht)

lemma length_insertByDateDesc (r : StatusRegistry) :
    ∀ l : List StatusRegistry, (insertByDateDesc r l).length = l.length + 1 := by
  intro l
  induction l with
  | nil => rfl
  | cons a as ih =>
    rw [insertByDateDesc]
    split
    · rfl
    · simp [ih]

lemma length_sortByDateDesc :
    ∀ l : List StatusRegistry, (sortByDateDesc l).length = l.length := by
  intro l
  induction l with
  | nil => rfl
  | cons a as ih =>
    unfold sortByDateDesc
    rw [List.foldr_cons, length_insertByDateDesc]
    unfold sortByDateDesc at ih
    rw [ih]
    rfl

/-! ## Claim C1 -/

/-- Claim C1 (spec-modelled store): starting from registries that are all
pending, after any sequence of `confirm_registry` calls the pending view is
exactly the registries whose date was never confirmed; every registry whose
date was confirmed appears in `get_history` with status confirmed and is
excluded from `get_pending_registries`; and `confirm_registry` is a total
no-op — not an error — on an already-confirmed date (idempotent) and on a
date that does not exist in the store. -/
theorem C1_confirm_pending_semantics (s : ConfirmStore) (ds : List String)
    (hp : ∀ r ∈ s.registries, r.status = .pending) :
    (get_pending_registries (ds.foldl (fun st d => confirm_registry d st) s) =
        s.registries.filter (fun r => decide (r.date ∉ ds)))
    ∧ (∀ r ∈ s.registries, r.date ∈ ds →
        ({ r with status := RegStatus.confirmed } : StatusRegistry).status = .confirmed
        ∧ { r with status := RegStatus.confirmed } ∈
            get_history
              (ds.foldl (fun st d => confirm_registry d st) s).registries.length
              (ds.foldl (fun st d => confirm_registry d st) s)
        ∧ { r with status := RegStatus.confirmed } ∉
            get_pending_registries (ds.foldl (fun st d => confirm_registry d st) s))
    ∧ (∀ (d : String) (st : ConfirmStore),
        confirm_registry d (confirm_registry d st) = confirm_registry d st)
    ∧ (∀ (d : String) (st : ConfirmStore), (∀ r ∈ st.registries, r.date ≠ d) →
        confirm_registry d st = st) := by
  refine ⟨?_, ?_, ?_, ?_⟩
  · unfold get_pending_registries
    rw [confirm_foldl_registries]
    exact filter_pending_after_map ds s.registries hp
  · intro r hr hd
    refine ⟨rfl, ?_, ?_⟩
    · unfold get_history
      rw [List.take_of_length_le (by rw [length_sortByDateDesc])]
      apply mem_sortByDateDesc_of_mem
      rw [confirm_foldl_registries]
      have : ({ r with status := RegStatus.confirmed } : StatusRegistry) =
          (fun r : StatusRegistry =>
            if r.date ∈ ds then { r with status := RegStatus.confirmed } else r) r := by
        simp [hd]
      rw [this]
      exact List.mem_map_of_mem _ hr
    · intro hmem
      unfold get_pending_registries at hmem
      have := List.of_mem_filter hmem
      simp at this
  · intro d st
    unfold confirm_registry
    congr 1
    rw [List.map_map]
    apply List.map_congr_left
    intro r _
    by_cases h1 : r.date = d
    · simp [Function.comp, h1]
    · simp [Function.comp, h1]
  · intro d st h
    unfold confirm_registry
    have : st.registries.map
        (fun r => if r.date = d then { r with status := RegStatus.confirmed } else r) =
        st.registries.map id := by
      apply List.map_congr_left
      intro r hr
      simp [h r hr]
    rw [this, List.map_id]

theorem C1_witness :
    get_pending_registries
        (["2026-01-15"].foldl (fun st d => confirm_registry d st) c1store) =
      c1store.registries.filter (fun r => decide (r.date ∉ ["2026-01-15"]))
    ∧ { c1reg1 with status := RegStatus.confirmed } ∈
        get_history
          ((["2026-01-15"].foldl (fun st d => confirm_registry d st) c1store)).registries.length
          (["2026-01-15"].foldl (fun st d => confirm_registry d st) c1store)
    ∧ confirm_registry "x" (confirm_registry "x" c1store) = confirm_registry "x" c1store := by
  have h := C1_confirm_pending_semantics c1store ["2026-01-15"]
    (by
      intro r hr
      simp only [c1store] at hr
      rcases List.mem_cons.mp hr with he | ht
      · subst he; rfl
      · rcases List.mem_cons.mp ht with he2 | ht2
        · subst he2; rfl
        · exact absurd ht2 (by simp))
  refine ⟨h.1, ?_, h.2.2.1 "x" c1store⟩
  have hm : c1reg1 ∈ c1store.registries := by
    simp [c1store]
  have hd : c1reg1.date ∈ ["2026-01-15"] := by
    simp [c1reg1]
  exact (h.2.1 c1reg1 hm hd).2.1

/-! ## Decimal-pattern lemmas for the aggregation queries -/

lemma digitChar_isDigit (n : Nat) (h : n < 10) : (Nat.digitChar n).isDigit = true := by
  interval_cases n <;> decide

lemma natDigitsAux_all_digits :
    ∀ (fuel n : Nat), ∀ c ∈ natDigitsAux fuel n, c.isDigit = true := by
  intro fuel
  induction fuel with
  | zero =>
    intro n c hc
    exact absurd hc (by simp [natDigitsAux])
  | succ fuel ih =>
    intro n c hc
    rw [natDigitsAux] at hc
    split at hc
    · rename_i hn
      rw [List.mem_singleton] at hc
      subst hc
      exact digitChar_isDigit n hn
    · rcases List.mem_append.mp hc with h1 | h2
      · exact ih _ c h1
      · rw [List.mem_singleton] at h2
        subst h2
        exact digitChar_isDigit _ (Nat.mod_lt _ (by omega))

lemma natDigitsAux_length_le :
    ∀ (fuel n k : Nat), 1 ≤ k → n < 10 ^ k → (natDigitsAux fuel n).length ≤ k := by
  intro fuel
  induction fuel with
  | zero =>
    intro n k h1 _
    simp [natDigitsAux]
  | succ fuel ih =>
    intro n k h1 h2
    rw [natDigitsAux]
    split
    · simpa using h1
    · rename_i hn
      push_neg at hn
      have hk2 : 2 ≤ k := by
        by_contra hlt
        push_neg at hlt
        interval_cases k
        rw [pow_one] at h2
        omega
      have hpow : (10 : Nat) ^ k = 10 ^ (k - 1) * 10 := by
        rw [← pow_succ]
        congr 1
        omega
      have hdiv : n / 10 < 10 ^ (k - 1) := by
        rw [Nat.div_lt_iff_lt_mul (by omega)]
        rw [hpow] at h2
        exact h2
      have hlen := ih (n / 10) (k - 1) (by omega) hdiv
      rw [List.length_append]
      simp only [List.length_singleton]
      omega

lemma padDigits_length (w n : Nat) (h : (natDigits n).length ≤ w) :
    (padDigits w n).length = w := by
  unfold padDigits
  rw [List.length_append, List.length_replicate]
  omega

lemma padDigits_all_digits (w n : Nat) : ∀ c ∈ padDigits w n, c.isDigit = true := by
  intro c hc
  unfold padDigits at hc
  rcases List.mem_append.mp hc with h1 | h2
  · rw [List.eq_of_mem_replicate h1]
    decide
  · exact natDigitsAux_all_digits (n + 1) n c h2

lemma padDigits_four_length (y : Nat) (hy : y ≤ 9999) : (padDigits 4 y).length = 4 := by
  apply padDigits_length
  apply natDigitsAux_length_le (y + 1) y 4 (by omega)
  have : (10 : Nat) ^ 4 = 10000 := by norm_num
  omega

lemma padDigits_two_length (m : Nat) (hm : m ≤ 99) : (padDigits 2 m).length = 2 := by
  apply padDigits_length
  apply natDigitsAux_length_le (m + 1) m 2 (by omega)
  have : (10 : Nat) ^ 2 = 100 := by norm_num
  omega

lemma exists_four_of_length (l : List Char) (h : l.length = 4) :
    ∃ a b c d, l = [a, b, c, d] := by
  cases l with
  | nil => simp at h
  | cons a t1 =>
    cases t1 with
    | nil => simp at h
    | cons b t2 =>
      cases t2 with
      | nil => simp at h
      | cons c t3 =>
        cases t3 with
        | nil => simp at h
        | cons d t4 =>
          cases t4 with
          | nil => exact ⟨a, b, c, d, rfl⟩
          | cons e t5 => simp at h

lemma exists_two_of_length (l : List Char) (h : l.length = 2) :
    ∃ a b, l = [a, b] := by
  cases l with
  | nil => simp at h
  | cons a t1 =>
    cases t1 with
    | nil => simp at h
    | cons b t2 =>
      cases t2 with
      | nil => exact ⟨a, b, rfl⟩
      | cons c t3 => simp at h

lemma isPrefixB_iff : ∀ p s : List Char, isPrefixB p s = true ↔ ∃ t, p ++ t = s := by
  intro p
  induction p with
  | nil =>
    intro s
    simp [isPrefixB]
  | cons a as ih =>
    intro s
    cases s with
    | nil =>
      rw [isPrefixB]
      simp
    | cons b bs =>
      rw [isPrefixB]
      simp only [Bool.and_eq_true, decide_eq_true_eq, ih bs]
      constructor
      · rintro ⟨hab, t, ht⟩
        exact ⟨t, by rw [List.cons_append, hab, ht]⟩
      · rintro ⟨t, ht⟩
        rw [List.cons_append] at ht
        injection ht with h1 h2
        exact ⟨h1, t, h2⟩

lemma monthPattern_no_calendar (y m : Nat) (hy : y ≤ 9999) (hm : m ≤ 99) (d : String)
    (hcal : calendarShaped d = false) :
    isPrefixB (monthPatternC y m) d.toList = false := by
  cases hpre : isPrefixB (monthPatternC y m) d.toList
  · rfl
  · exfalso
    obtain ⟨t, ht⟩ := (isPrefixB_iff _ _).mp hpre
    obtain ⟨a, b, c, e, habcd⟩ :=
      exists_four_of_length _ (padDigits_four_length y hy)
    obtain ⟨f, g, hfg⟩ := exists_two_of_length _ (padDigits_two_length m hm)
    have hda : a.isDigit = true := padDigits_all_digits 4 y a (by rw [habcd]; simp)
    have hdb : b.isDigit = true := padDigits_all_digits 4 y b (by rw [habcd]; simp)
    have hdc : c.isDigit = true := padDigits_all_digits 4 y c (by rw [habcd]; simp)
    have hde : e.isDigit = true := padDigits_all_digits 4 y e (by rw [habcd]; simp)
    have hdf : f.isDigit = true := padDigits_all_digits 2 m f (by rw [hfg]; simp)
    have hdg : g.isDigit = true := padDigits_all_digits 2 m g (by rw [hfg]; simp)
    rw [monthPatternC, habcd, hfg] at ht
    have hshape : d.toList = a :: b :: c :: e :: '-' :: f :: g :: '-' :: t := by
      rw [← ht]
      simp
    rw [calendarShaped, hshape] at hcal
    simp [hda, hdb, hdc, hde, hdf, hdg] at hcal

lemma filter_append_middle {α : Type} (p : α → Bool) (l1 l2 : List α) (x : α)
    (hx : p x = false) :
    (l1 ++ x :: l2).filter p = (l1 ++ l2).filter p := by
  rw [List.filter_append, List.filter_append, List.filter_cons, hx]
  simp

/-! ## Claim C10 -/

/-- Claim C10 (amended): a stored registry whose date does not begin with a
calendar `YYYY-MM-` shape is excluded from `get_monthly_stats` for every
calendar-range argument (year up to 9999, month up to 99); it is excluded from
`get_yearly_stats(y)` exactly when its date also fails the year's own
`'YYYY-%'` prefix (a date such as `"2026-bad"` has no calendar `YYYY-MM-`
prefix yet is still counted by `get_yearly_stats 2026`); and it is always
included in the `get_all_time_stats` sums and registry count. -/
theorem C10_non_calendar_dates_in_stats (db1 db2 : RegDB) (r : RegistryRow)
    (l1 l2 : List RegistryRow)
    (h1 : db1.registries = l1 ++ r :: l2) (h2 : db2.registries = l1 ++ l2)
    (hcal : calendarShaped r.date = false) :
    (∀ y m, y ≤ 9999 → m ≤ 99 → get_monthly_stats y m db1 = get_monthly_stats y m db2)
    ∧ (∀ y, isPrefixB (yearPatternC y) r.date.toList = false →
        get_yearly_stats y db1 = get_yearly_stats y db2)
    ∧ (get_all_time_stats db1).total_income =
        (get_all_time_stats db2).total_income + r.total_amount
    ∧ (get_all_time_stats db1).total_commission =
        (get_all_time_stats db2).total_commission + r.commission
    ∧ (get_all_time_stats db1).total_payments =
        (get_all_time_stats db2).total_payments + r.payments_count
    ∧ (get_all_time_stats db1).registries_count =
        (get_all_time_stats db2).registries_count + 1 := by
  refine ⟨?_, ?_, ?_, ?_, ?_, ?_⟩
  · intro y m hy hm
    unfold get_monthly_stats
    rw [h1, h2,
      filter_append_middle (fun rr : RegistryRow => isPrefixB (monthPatternC y m) rr.date.toList)
        l1 l2 r (monthPattern_no_calendar y m hy hm r.date hcal)]
  · intro y hyp
    unfold get_yearly_stats
    rw [h1, h2,
      filter_append_middle (fun rr : RegistryRow => isPrefixB (yearPatternC y) rr.date.toList)
        l1 l2 r hyp]
  · unfold get_all_time_stats
    rw [h1, h2]
    simp only [List.map_append, List.sum_append, List.map_cons, List.sum_cons]
    ring
  · unfold get_all_time_stats
    rw [h1, h2]
    simp only [List.map_append, List.sum_append, List.map_cons, List.sum_cons]
    ring
  · unfold get_all_time_stats
    rw [h1, h2]
    simp only [List.map_append, List.sum_append, List.map_cons, List.sum_cons]
    omega
  · unfold get_all_time_stats
    rw [h1, h2]
    simp only [List.length_append, List.length_cons]
    omega

/-- Claim C10, counterexample to the claim as stated: the stored registry with
date `"2026-bad"` does not begin with a calendar `YYYY-MM-` prefix, yet its
totals are NOT excluded from `get_yearly_stats 2026` — the yearly query
filters only on the `'2026-%'` prefix, which that date matches. -/
theorem C10_counterexample :
    calendarShaped "2026-bad" = false
    ∧ get_yearly_stats 2026 c10db = ⟨5, 1, 2⟩
    ∧ (get_yearly_stats 2026 c10db).total_income ≠ 0 :=
  ⟨by decide, by with_unfolding_all rfl, by with_unfolding_all decide⟩

theorem C10_witness :
    get_monthly_stats 2026 1 c10dbA = get_monthly_stats 2026 1 c10dbB
    ∧ get_yearly_stats 2026 c10dbA = get_yearly_stats 2026 c10dbB
    ∧ (get_all_time_stats c10dbA).total_income =
        (get_all_time_stats c10dbB).total_income + c10unknown.total_amount := by
  have h := C10_non_calendar_dates_in_stats c10dbA c10dbB c10unknown [] [c10r]
    rfl rfl (by decide)
  exact ⟨h.1 2026 1 (by omega) (by omega), h.2.1 2026 (by decide), h.2.2.1⟩

end Bot
